import Mathlib

/-!
Verification of the Handicap Engine of the golf-handicap repository
(`src/lib/handicap.ts`), shallowly embedded in Lean 4.

JavaScript numbers are modelled as rationals (`ℚ`); the arithmetic the
engine performs (subtraction, multiplication, division, averaging,
one-decimal rounding) is therefore exact.  A round's `date` field is a
string that the source only ever uses through `new Date(...).getTime()`
and `Date` comparison, both of which reduce to comparing the parsed
timestamp; we model the field by that timestamp, an integer `ℤ`.

`Array.prototype.sort` is required by the ECMAScript standard to be a
stable sort; a stable sort's output is the unique sorted rearrangement
that keeps equal-comparing elements in input order, so Mathlib's
`List.insertionSort` (stable) is its faithful model.

`calculateHandicapHistory` reads the ambient clock: it computes
`sixMonthsAgo` from `new Date()` (current date minus six calendar
months).  Stateful access to the environment is made explicit: the
embedded function takes the resulting cutoff timestamp `sixMonthsAgo`
as an additional argument.
-/

/-- A round record, from `src/lib/types.ts` (`Round`).  `date` is the
timestamp of the parsed date string (see module comment). -/
structure Round where
  id : String
  player_id : String
  date : ℤ
  course : String
  tee : String
  rating : ℚ
  slope : ℚ
  score : ℚ
  deriving Repr, DecidableEq

/-- A handicap-history point, from `src/lib/types.ts` (`HandicapHistory`). -/
structure HandicapHistory where
  date : ℤ
  handicap : ℚ
  rounds : ℕ
  deriving Repr, DecidableEq

/-- `calculateDifferential` from `src/lib/handicap.ts`:
`((round.score - round.rating) * 113) / round.slope`. -/
def calculateDifferential (round : Round) : ℚ :=
  ((round.score - round.rating) * 113) / round.slope

/-- `Number.parseFloat(x.toFixed(1))`: rounding to one decimal place.
ECMAScript `toFixed(1)` picks the integer `n` minimizing `|n / 10 - x|`,
taking the larger `n` on ties, which is exactly Mathlib's `round`
(round half towards `+∞`) applied to `10 * x`. -/
def toFixed1 (x : ℚ) : ℚ :=
  (round (x * 10) : ℚ) / 10

/-- The `numToUse` step table inside `calculateHandicap`
(`src/lib/handicap.ts`), branches in source order.  The source's final
branch returns `0` from `calculateHandicap` itself when
`totalRounds < 3`; that branch is represented here by the value `0`. -/
def numToUse (totalRounds : ℕ) : ℕ :=
  if totalRounds ≥ 20 then 8
  else if totalRounds = 19 then 7
  else if totalRounds = 18 then 6
  else if totalRounds ≥ 15 then 5
  else if totalRounds ≥ 12 then 4
  else if totalRounds ≥ 9 then 3
  else if totalRounds ≥ 6 then 2
  else if totalRounds ≥ 3 then 1
  else 0

/-- `calculateHandicap` from `src/lib/handicap.ts`. -/
def calculateHandicap (rounds : List Round) : ℚ :=
  -- `if (!rounds.length) return 0`
  if rounds.length = 0 then 0
  else
    -- STEP 1: differential for each round
    let diffs := rounds.map (fun r => ((r.score - r.rating) * 113) / r.slope)
    -- STEP 2: how many differentials to use; `return 0` when fewer than 3
    let totalRounds := diffs.length
    if totalRounds < 3 then 0
    else
      -- STEP 3: sort ascending (`[...diffs].sort((a, b) => a - b)`, a
      -- stable sort of a copy) and take the best `numToUse`
      let sortedDiffs := diffs.insertionSort (· ≤ ·)
      let bestDiffs := sortedDiffs.take (numToUse totalRounds)
      -- STEP 4: average of the best differentials
      let avgDiff := bestDiffs.foldl (· + ·) 0 / (bestDiffs.length : ℚ)
      -- STEP 5: 96% multiplier
      let handicapIndex := avgDiff * (96 / 100)
      -- STEP 6: round to one decimal place
      toFixed1 handicapIndex

/-- The date-ascending stable sort used by `calculateHandicapHistory`
(`[...rounds].sort((a, b) => new Date(a.date).getTime() - new Date(b.date).getTime())`). -/
def sortedByDate (rounds : List Round) : List Round :=
  rounds.insertionSort (fun a b => a.date ≤ b.date)

/-- The body of the `forEach` loop of `calculateHandicapHistory`
(`src/lib/handicap.ts`): given the accumulated `history` and the pair
`p` of the iteration index and the current round, conditionally push a
new history point. -/
def historyStep (sixMonthsAgo : ℤ) (sortedRounds : List Round)
    (history : List HandicapHistory) (p : ℕ × Round) : List HandicapHistory :=
  -- `const roundsUpToThis = sortedRounds.slice(0, index + 1)`
  let roundsUpToThis := sortedRounds.take (p.1 + 1)
  -- include only when within the cutoff and at least 3 rounds so far
  if sixMonthsAgo ≤ p.2.date ∧ 3 ≤ roundsUpToThis.length then
    history ++
      [{ date := p.2.date
         handicap := calculateHandicap roundsUpToThis
         rounds := roundsUpToThis.length }]
  else history

/-- `calculateHandicapHistory` from `src/lib/handicap.ts`.  The cutoff
`sixMonthsAgo` (current date minus six calendar months, computed by the
source from the ambient clock) is passed explicitly.  The `forEach`
loop pushing onto `history` is a left fold of `historyStep` over the
date-sorted rounds paired with their indices. -/
def calculateHandicapHistory (sixMonthsAgo : ℤ) (rounds : List Round) :
    List HandicapHistory :=
  -- `if (rounds.length < 3) return []`
  if rounds.length < 3 then []
  else
    -- STEP 1: sort rounds by date, oldest first (on a copy)
    let sortedRounds := sortedByDate rounds
    -- STEP 3: for each round, handicap over the prefix ending at it
    sortedRounds.enum.foldl (historyStep sixMonthsAgo sortedRounds) []

/-! ### The inline copies in `src/unnamed/part_009`

The page component in `src/unnamed/part_009` declares its own `Round`
and `HandicapHistory` types (field-for-field identical to
`src/lib/types.ts`) and defines local `calculateHandicap` and
`calculateHandicapHistory` functions inside the component body.  They
are embedded here independently, from that file's text. -/

namespace Part009

/-- The inline `calculateHandicap` from `src/unnamed/part_009`. -/
def calculateHandicap (rounds : List Round) : ℚ :=
  if rounds.length = 0 then 0
  else
    let diffs := rounds.map (fun r => ((r.score - r.rating) * 113) / r.slope)
    let totalRounds := diffs.length
    if totalRounds < 3 then 0
    else
      let sortedDiffs := diffs.insertionSort (· ≤ ·)
      let bestDiffs := sortedDiffs.take (numToUse totalRounds)
      let avgDiff := bestDiffs.foldl (· + ·) 0 / (bestDiffs.length : ℚ)
      let handicapIndex := avgDiff * (96 / 100)
      toFixed1 handicapIndex

/-- The inline `calculateHandicapHistory` from `src/unnamed/part_009`
(it calls the component's own `calculateHandicap`). -/
def calculateHandicapHistory (sixMonthsAgo : ℤ) (rounds : List Round) :
    List HandicapHistory :=
  if rounds.length < 3 then []
  else
    let sortedRounds := rounds.insertionSort (fun a b => a.date ≤ b.date)
    sortedRounds.enum.foldl
      (fun history p =>
        let roundsUpToThis := sortedRounds.take (p.1 + 1)
        if sixMonthsAgo ≤ p.2.date ∧ 3 ≤ roundsUpToThis.length then
          history ++
            [{ date := p.2.date
               handicap := Part009.calculateHandicap roundsUpToThis
               rounds := roundsUpToThis.length }]
        else history)
      []

end Part009

/-! ### Helper lemmas -/

theorem one_le_numToUse {n : ℕ} (h : 3 ≤ n) : 1 ≤ numToUse n := by
  unfold numToUse; split_ifs <;> omega

theorem numToUse_le (n : ℕ) : numToUse n ≤ n := by
  unfold numToUse; split_ifs <;> omega

/-! ### Sample data for concrete instantiations

With `slope = 113` and `rating = 72` the differential of a round is
exactly `score - 72`, which keeps the arithmetic below transparent. -/

def sampleRound (d : ℤ) (sc : ℚ) : Round :=
  { id := "", player_id := "", date := d, course := "", tee := "", rating := 72,
    slope := 113, score := sc }

def sampleRounds : List Round :=
  [sampleRound 10 90, sampleRound 20 85, sampleRound 30 95]

/-! ### Claims -/

/-- C2: for every list of rounds, the number of best differentials used
by `calculateHandicap` (the `numToUse` step table applied to the list
length) is exactly 8 for length ≥ 20, 7 at 19, 6 at 18, 5 for 15–17,
4 for 12–14, 3 for 9–11, 2 for 6–8 and 1 for 3–5. -/
theorem numToUse_step_table (n : ℕ) :
    (20 ≤ n → numToUse n = 8) ∧
    (n = 19 → numToUse n = 7) ∧
    (n = 18 → numToUse n = 6) ∧
    (15 ≤ n ∧ n ≤ 17 → numToUse n = 5) ∧
    (12 ≤ n ∧ n ≤ 14 → numToUse n = 4) ∧
    (9 ≤ n ∧ n ≤ 11 → numToUse n = 3) ∧
    (6 ≤ n ∧ n ≤ 8 → numToUse n = 2) ∧
    (3 ≤ n ∧ n ≤ 5 → numToUse n = 1) := by
  refine ⟨?_, ?_, ?_, ?_, ?_, ?_, ?_, ?_⟩
  · intro h; unfold numToUse; rw [if_pos h]
  · rintro rfl; decide
  · rintro rfl; decide
  · rintro ⟨h1, h2⟩; interval_cases n <;> decide
  · rintro ⟨h1, h2⟩; interval_cases n <;> decide
  · rintro ⟨h1, h2⟩; interval_cases n <;> decide
  · rintro ⟨h1, h2⟩; interval_cases n <;> decide
  · rintro ⟨h1, h2⟩; interval_cases n <;> decide

/-- Witness for C2 at the boundary lengths 20, 19, 18 and 3. -/
theorem numToUse_step_table_witness :
    numToUse 20 = 8 ∧ numToUse 19 = 7 ∧ numToUse 18 = 6 ∧ numToUse 3 = 1 :=
  ⟨(numToUse_step_table 20).1 (by decide),
   (numToUse_step_table 19).2.1 rfl,
   (numToUse_step_table 18).2.2.1 rfl,
   (numToUse_step_table 3).2.2.2.2.2.2.2 (by decide)⟩

/-- C4: with fewer than 3 rounds, `calculateHandicap` returns exactly
`0` and `calculateHandicapHistory` returns the empty sequence (both are
total functions, so neither can fail). -/
theorem insufficient_rounds_zero (sixMonthsAgo : ℤ) (rounds : List Round)
    (h : rounds.length < 3) :
    calculateHandicap rounds = 0 ∧
    calculateHandicapHistory sixMonthsAgo rounds = [] := by
  constructor
  · simp only [calculateHandicap, List.length_map]
    split_ifs <;> rfl
  · unfold calculateHandicapHistory
    rw [if_pos h]

/-- Witness for C4 on a concrete two-round list. -/
theorem insufficient_rounds_zero_witness :
    calculateHandicap [sampleRound 10 90, sampleRound 20 85] = 0 ∧
    calculateHandicapHistory 0 [sampleRound 10 90, sampleRound 20 85] = [] :=
  insufficient_rounds_zero 0 [sampleRound 10 90, sampleRound 20 85] (by decide)

/-- C9: with at least 3 rounds, the step table picks between 1 and
`rounds.length` differentials, so the slice of best differentials taken
by `calculateHandicap` is non-empty and its average is never a division
by zero. -/
theorem bestDiffs_nonempty (rounds : List Round) (h : 3 ≤ rounds.length) :
    1 ≤ numToUse rounds.length ∧ numToUse rounds.length ≤ rounds.length ∧
    0 < (((rounds.map (fun r => ((r.score - r.rating) * 113) / r.slope)).insertionSort
      (· ≤ ·)).take (numToUse rounds.length)).length := by
  refine ⟨one_le_numToUse h, numToUse_le _, ?_⟩
  rw [List.length_take, List.length_insertionSort, List.length_map]
  have h1 := one_le_numToUse h
  have h2 := numToUse_le rounds.length
  omega

/-- Witness for C9 on a concrete three-round list. -/
theorem bestDiffs_nonempty_witness :
    1 ≤ numToUse sampleRounds.length ∧
    numToUse sampleRounds.length ≤ sampleRounds.length ∧
    0 < (((sampleRounds.map (fun r => ((r.score - r.rating) * 113) / r.slope)).insertionSort
      (· ≤ ·)).take (numToUse sampleRounds.length)).length :=
  bestDiffs_nonempty sampleRounds (by decide)

/-- C5 counterexample: for `score = 85`, `rating = 72.5`, `slope = 130`
the differential is `565/52 = 10.8653...`, which lies strictly between
`10.86` and `10.87`; it is not `10.826...` (and it displays rounded to
one decimal as `10.9`, not `10.8`). -/
theorem differential_example_value :
    calculateDifferential
        { id := "", player_id := "", date := 0, course := "", tee := "",
          rating := 72.5, slope := 130, score := 85 } = 565 / 52 ∧
    (1086 / 100 : ℚ) < 565 / 52 ∧ (565 / 52 : ℚ) < 1087 / 100 ∧
    toFixed1 (565 / 52) = 109 / 10 := by
  refine ⟨?_, by norm_num, by norm_num, ?_⟩
  · norm_num [calculateDifferential]
  · norm_num [toFixed1, round_eq]

/-- C5 (amended): for every round with nonzero slope,
`calculateDifferential` returns `(score − rating) × 113 / slope`; in
particular for `score = 85`, `rating = 72.5`, `slope = 130` the result
is `(85 − 72.5) × 113 / 130 = 565/52 = 10.865...`, unrounded. -/
theorem differential_formula :
    (∀ round : Round, round.slope ≠ 0 →
      calculateDifferential round = (round.score - round.rating) * 113 / round.slope) ∧
    calculateDifferential
        { id := "", player_id := "", date := 0, course := "", tee := "",
          rating := 72.5, slope := 130, score := 85 } = 565 / 52 := by
  constructor
  · intro r h
    rfl
  · norm_num [calculateDifferential]

/-- Witness for C5 (amended) at the concrete round of the claim. -/
theorem differential_formula_witness :
    calculateDifferential
        { id := "", player_id := "", date := 0, course := "", tee := "",
          rating := 72.5, slope := 130, score := 85 } = (85 - 72.5) * 113 / 130 := by
  have h := differential_formula.1
    { id := "", player_id := "", date := 0, course := "", tee := "",
      rating := 72.5, slope := 130, score := 85 } (by norm_num)
  simpa using h

/-- C10: the inline `calculateHandicap` and `calculateHandicapHistory`
defined inside the component in `src/unnamed/part_009` compute exactly
the same functions as the exported ones in `src/lib/handicap.ts`. -/
theorem part009_copies_equal (sixMonthsAgo : ℤ) (rounds : List Round) :
    Part009.calculateHandicap rounds = calculateHandicap rounds ∧
    Part009.calculateHandicapHistory sixMonthsAgo rounds
      = calculateHandicapHistory sixMonthsAgo rounds :=
  ⟨rfl, rfl⟩

/-- C6 counterexample: `calculateHandicapHistory` is not a function of
the round list alone — the source reads the ambient clock, and the same
three-round list yields different outputs for two different values of
the clock-derived cutoff (all three rounds dated between the two
cutoffs). -/
theorem history_depends_on_clock :
    calculateHandicapHistory 0 sampleRounds ≠ calculateHandicapHistory 100 sampleRounds := by
  have h1 : calculateHandicapHistory 0 sampleRounds = [{ date := 30, handicap := 25/2, rounds := 3 }] := by
    norm_num [calculateHandicapHistory, sortedByDate, historyStep, calculateHandicap,
      List.insertionSort, List.orderedInsert, numToUse, toFixed1, round_eq,
      List.enum, List.enumFrom, sampleRounds, sampleRound]
  have h2 : calculateHandicapHistory 100 sampleRounds = [] := by
    norm_num [calculateHandicapHistory, sortedByDate, historyStep, calculateHandicap,
      List.insertionSort, List.orderedInsert, numToUse, toFixed1, round_eq,
      List.enum, List.enumFrom, sampleRounds, sampleRound]
  rw [h1, h2]
  simp

/-- C6 (amended): `calculateDifferential` and `calculateHandicap` are
pure functions of their argument, and `calculateHandicapHistory` is a
pure function of its argument together with the clock-derived cutoff:
equal inputs always give equal outputs. -/
theorem engine_deterministic (r₁ r₂ : Round) (hr : r₁ = r₂)
    (l₁ l₂ : List Round) (hl : l₁ = l₂) (c₁ c₂ : ℤ) (hc : c₁ = c₂) :
    calculateDifferential r₁ = calculateDifferential r₂ ∧
    calculateHandicap l₁ = calculateHandicap l₂ ∧
    calculateHandicapHistory c₁ l₁ = calculateHandicapHistory c₂ l₂ := by
  subst hr hl hc
  exact ⟨rfl, rfl, rfl⟩

/-- Witness for C6 (amended) at concrete inputs. -/
theorem engine_deterministic_witness :
    calculateDifferential (sampleRound 10 90) = calculateDifferential (sampleRound 10 90) ∧
    calculateHandicap sampleRounds = calculateHandicap sampleRounds ∧
    calculateHandicapHistory 0 sampleRounds = calculateHandicapHistory 0 sampleRounds :=
  engine_deterministic _ _ rfl _ _ rfl _ _ rfl

/-! ### Input-preservation (frame) model

The source never calls a mutating array method on its input: `map` and
`slice` allocate new arrays, `[...xs]` copies, and `.sort` (the one
in-place operation used) is only ever invoked on a spread copy.  To
state this as a theorem rather than leave it implicit in the pure
embedding, the two operations are re-embedded below with the contents
of the caller's `rounds` array threaded through explicitly: the second
component of the result is what that array holds when the function
returns. -/

/-- `calculateHandicap`, with the caller's array threaded through.
`inPlaceSort` models `Array.prototype.sort`, which sorts its receiver
in place and returns it: the receiver here is the spread copy
`[...diffs]`, never `diffs` itself and never `rounds`. -/
def calculateHandicapFrame (rounds : List Round) : ℚ × List Round :=
  if rounds.length = 0 then (0, rounds)
  else
    let diffs := rounds.map (fun r => ((r.score - r.rating) * 113) / r.slope)
    let totalRounds := diffs.length
    if totalRounds < 3 then (0, rounds)
    else
      let copyOfDiffs := diffs
      let inPlaceSort := fun (l : List ℚ) => l.insertionSort (· ≤ ·)
      let sortedDiffs := inPlaceSort copyOfDiffs
      let bestDiffs := sortedDiffs.take (numToUse totalRounds)
      let avgDiff := bestDiffs.foldl (· + ·) 0 / (bestDiffs.length : ℚ)
      let handicapIndex := avgDiff * (96 / 100)
      (toFixed1 handicapIndex, rounds)

/-- `calculateHandicapHistory`, with the caller's array threaded
through; the in-place sort acts on the spread copy `[...rounds]`. -/
def calculateHandicapHistoryFrame (sixMonthsAgo : ℤ) (rounds : List Round) :
    List HandicapHistory × List Round :=
  if rounds.length < 3 then ([], rounds)
  else
    let copyOfRounds := rounds
    let inPlaceSort := fun (l : List Round) => l.insertionSort (fun a b => a.date ≤ b.date)
    let sortedRounds := inPlaceSort copyOfRounds
    (sortedRounds.enum.foldl (historyStep sixMonthsAgo sortedRounds) [], rounds)

/-- C8: neither operation mutates its input: after the call the
caller's round list holds the same elements in the same order as
before, and the computed value agrees with the pure embedding. -/
theorem engine_preserves_input (sixMonthsAgo : ℤ) (rounds : List Round) :
    (calculateHandicapFrame rounds).2 = rounds ∧
    (calculateHandicapFrame rounds).1 = calculateHandicap rounds ∧
    (calculateHandicapHistoryFrame sixMonthsAgo rounds).2 = rounds ∧
    (calculateHandicapHistoryFrame sixMonthsAgo rounds).1
      = calculateHandicapHistory sixMonthsAgo rounds := by
  refine ⟨?_, ?_, ?_, ?_⟩
  · simp only [calculateHandicapFrame]
    split_ifs <;> rfl
  · simp only [calculateHandicapFrame, calculateHandicap]
    split_ifs <;> rfl
  · simp only [calculateHandicapHistoryFrame]
    split_ifs <;> rfl
  · simp only [calculateHandicapHistoryFrame, calculateHandicapHistory]
    split_ifs <;> rfl

/-! ### Characterizing the history loop -/

instance : IsTotal Round (fun a b => a.date ≤ b.date) :=
  ⟨fun a b => Int.le_total a.date b.date⟩

instance : IsTrans Round (fun a b => a.date ≤ b.date) :=
  ⟨fun _ _ _ h₁ h₂ => le_trans h₁ h₂⟩

/-- What one iteration of the history loop contributes: `some` point
when the round passes the cutoff-and-prefix-length test, else `none`. -/
def historyEmit (sixMonthsAgo : ℤ) (sortedRounds : List Round) (p : ℕ × Round) :
    Option HandicapHistory :=
  let roundsUpToThis := sortedRounds.take (p.1 + 1)
  if sixMonthsAgo ≤ p.2.date ∧ 3 ≤ roundsUpToThis.length then
    some { date := p.2.date
           handicap := calculateHandicap roundsUpToThis
           rounds := roundsUpToThis.length }
  else none

/-- The conditional-push fold is the `filterMap` of the per-iteration
contributions. -/
theorem foldl_historyStep_eq_filterMap (c : ℤ) (s : List Round) :
    ∀ (ps : List (ℕ × Round)) (acc : List HandicapHistory),
      ps.foldl (historyStep c s) acc = acc ++ ps.filterMap (historyEmit c s) := by
  intro ps
  induction ps with
  | nil => intro acc; simp
  | cons p ps ih =>
    intro acc
    rw [List.foldl_cons, List.filterMap_cons]
    simp only [historyStep, historyEmit]
    split_ifs with hc
    · rw [ih]
      simp
    · rw [ih]

/-- Reindexing an enumerated `filterMap` by positions. -/
theorem filterMap_enumFrom_eq_range {α β : Type} (l : List α) :
    ∀ (s : ℕ) (G : ℕ × α → Option β),
      (l.enumFrom s).filterMap G
        = (List.range l.length).filterMap
            (fun i => (l.get? i).bind (fun a => G (s + i, a))) := by
  induction l with
  | nil => intro s G; simp
  | cons a l ih =>
    intro s G
    rw [List.enumFrom_cons, List.length_cons, List.range_succ_eq_map,
      List.filterMap_cons, List.filterMap_cons, List.filterMap_map]
    have hhead : (List.get? (a :: l) 0).bind (fun x => G (s + 0, x)) = G (s, a) := by
      simp
    have htail :
        ((fun i => (List.get? (a :: l) i).bind (fun x => G (s + i, x))) ∘ Nat.succ)
          = fun i => (l.get? i).bind (fun x => G (s + 1 + i, x)) := by
      funext i
      simp only [Function.comp_apply, List.get?_cons_succ]
      have harg : s + (i + 1) = s + 1 + i := by omega
      rw [show (i : ℕ).succ = i + 1 from rfl, harg]
    rw [hhead, htail, ← ih (s + 1) G]

/-- Position-by-position characterization of the history:
`calculateHandicapHistory` is the `filterMap` over positions `i` in the
date-sorted list, emitting a point exactly when the round's date is at
or after the cutoff and the prefix 1-based length `i + 1` is at least 3. -/
theorem calculateHandicapHistory_characterization (cutoff : ℤ) (rounds : List Round)
    (h3 : 3 ≤ rounds.length) :
    calculateHandicapHistory cutoff rounds
      = (List.range (sortedByDate rounds).length).filterMap (fun i =>
          ((sortedByDate rounds).get? i).bind (fun r =>
            if cutoff ≤ r.date ∧ 3 ≤ i + 1 then
              some { date := r.date
                     handicap := calculateHandicap ((sortedByDate rounds).take (i + 1))
                     rounds := i + 1 }
            else none)) := by
  unfold calculateHandicapHistory
  rw [if_neg (by omega)]
  show (sortedByDate rounds).enum.foldl (historyStep cutoff (sortedByDate rounds)) [] = _
  rw [List.enum_eq_enumFrom, foldl_historyStep_eq_filterMap, List.nil_append,
    filterMap_enumFrom_eq_range]
  apply List.filterMap_congr
  intro i hi
  rw [List.mem_range] at hi
  cases hg : (sortedByDate rounds).get? i with
  | none =>
    exact absurd (List.get?_eq_none.mp hg) (by omega)
  | some r =>
    simp only [Option.some_bind]
    have hlen : ((sortedByDate rounds).take (i + 1)).length = i + 1 := by
      rw [List.length_take]
      omega
    simp only [historyEmit, Nat.zero_add, hlen]

/-- Unpacking a successful emission at position `i`: the position is in
range, the point's round count is `i + 1`, its date is the date of the
`i`-th sorted round, and that date is at or after the cutoff. -/
theorem emit_some {cutoff : ℤ} {s : List Round} {i : ℕ} {x : HandicapHistory}
    (hx : (s.get? i).bind (fun r =>
        if cutoff ≤ r.date ∧ 3 ≤ i + 1 then
          some { date := r.date
                 handicap := calculateHandicap (s.take (i + 1))
                 rounds := i + 1 }
        else none) = some x) :
    ∃ hi : i < s.length,
      x.rounds = i + 1 ∧ x.date = (s.get ⟨i, hi⟩).date ∧ cutoff ≤ x.date := by
  obtain ⟨r, hr, hif⟩ := Option.bind_eq_some.mp hx
  obtain ⟨hi, hget⟩ := List.get?_eq_some.mp hr
  split_ifs at hif with hc
  injection hif with h
  subst h
  exact ⟨hi, rfl, by rw [hget], hc.1⟩

/-- C3: with at least 3 rounds, `calculateHandicapHistory` emits a
point for position `i` of the date-sorted rounds exactly when that
round's date is at or after the cutoff and `i + 1 ≥ 3`; the point
carries the round's date, the handicap of the sorted prefix of length
`i + 1`, and round count `i + 1`.  In particular every emitted point is
dated at or after the cutoff, so a round dated before the cutoff never
produces a point. -/
theorem history_point_emission (cutoff : ℤ) (rounds : List Round)
    (h3 : 3 ≤ rounds.length) :
    (calculateHandicapHistory cutoff rounds
      = (List.range (sortedByDate rounds).length).filterMap (fun i =>
          ((sortedByDate rounds).get? i).bind (fun r =>
            if cutoff ≤ r.date ∧ 3 ≤ i + 1 then
              some { date := r.date
                     handicap := calculateHandicap ((sortedByDate rounds).take (i + 1))
                     rounds := i + 1 }
            else none))) ∧
    ∀ p ∈ calculateHandicapHistory cutoff rounds, cutoff ≤ p.date := by
  refine ⟨calculateHandicapHistory_characterization cutoff rounds h3, ?_⟩
  intro p hp
  rw [calculateHandicapHistory_characterization cutoff rounds h3,
    List.mem_filterMap] at hp
  obtain ⟨i, -, hemit⟩ := hp
  obtain ⟨-, -, -, hcut⟩ := emit_some hemit
  exact hcut

/-- Witness for C3 at cutoff `0` on a concrete three-round list. -/
theorem history_point_emission_witness :
    calculateHandicapHistory 0 sampleRounds
      = (List.range (sortedByDate sampleRounds).length).filterMap (fun i =>
          ((sortedByDate sampleRounds).get? i).bind (fun r =>
            if (0 : ℤ) ≤ r.date ∧ 3 ≤ i + 1 then
              some { date := r.date
                     handicap := calculateHandicap ((sortedByDate sampleRounds).take (i + 1))
                     rounds := i + 1 }
            else none)) :=
  (history_point_emission 0 sampleRounds (by decide)).1

/-- C7: in the sequence returned by `calculateHandicapHistory`, the
round-count field is non-decreasing and the date field is
non-decreasing as the sequence index increases. -/
theorem history_monotone (cutoff : ℤ) (rounds : List Round) :
    ((calculateHandicapHistory cutoff rounds).map (fun p => p.rounds)).Sorted (· ≤ ·) ∧
    ((calculateHandicapHistory cutoff rounds).map (fun p => p.date)).Sorted (· ≤ ·) := by
  by_cases hlt : rounds.length < 3
  · unfold calculateHandicapHistory
    rw [if_pos hlt]
    exact ⟨List.sorted_nil, List.sorted_nil⟩
  · have h3 : 3 ≤ rounds.length := by omega
    rw [calculateHandicapHistory_characterization cutoff rounds h3]
    have hs : (sortedByDate rounds).Sorted (fun a b => a.date ≤ b.date) :=
      List.sorted_insertionSort _ _
    constructor
    · unfold List.Sorted
      rw [List.pairwise_map, List.pairwise_filterMap]
      refine List.Pairwise.imp ?_ (List.pairwise_lt_range _)
      intro i j hij x hx y hy
      rw [Option.mem_def] at hx hy
      obtain ⟨-, hxr, -, -⟩ := emit_some hx
      obtain ⟨-, hyr, -, -⟩ := emit_some hy
      rw [hxr, hyr]
      omega
    · unfold List.Sorted
      rw [List.pairwise_map, List.pairwise_filterMap]
      refine List.Pairwise.imp ?_ (List.pairwise_lt_range _)
      intro i j hij x hx y hy
      rw [Option.mem_def] at hx hy
      obtain ⟨hi, -, hxd, -⟩ := emit_some hx
      obtain ⟨hj, -, hyd, -⟩ := emit_some hy
      rw [hxd, hyd]
      exact hs.rel_get_of_lt (Fin.mk_lt_mk.mpr hij)

/-- C1: with at least 3 rounds (each with nonzero slope),
`calculateHandicap` returns the average of the `numToUse` smallest
differentials — the first `numToUse` entries of any ascending-sorted
rearrangement `sd` of the differentials — multiplied by exactly
`0.96 = 96/100` and rounded to one decimal place. -/
theorem handicap_formula (rounds : List Round) (h3 : 3 ≤ rounds.length)
    (_hslope : ∀ r ∈ rounds, r.slope ≠ 0)
    (sd : List ℚ) (hperm : sd.Perm (rounds.map calculateDifferential))
    (hsorted : sd.Sorted (· ≤ ·)) :
    calculateHandicap rounds
      = toFixed1 ((sd.take (numToUse rounds.length)).sum
          / (numToUse rounds.length : ℚ) * (96 / 100)) := by
  have hsd : sd = (rounds.map calculateDifferential).insertionSort (· ≤ ·) :=
    List.eq_of_perm_of_sorted
      (hperm.trans (List.perm_insertionSort _ _).symm) hsorted
      (List.sorted_insertionSort _ _)
  have hlen : (sd.take (numToUse rounds.length)).length = numToUse rounds.length := by
    rw [hsd, List.length_take, List.length_insertionSort, List.length_map]
    exact min_eq_left (numToUse_le _)
  have hmapeq : rounds.map (fun r => ((r.score - r.rating) * 113) / r.slope)
      = rounds.map calculateDifferential := rfl
  simp only [calculateHandicap, List.length_map]
  rw [if_neg (by omega), if_neg (by omega), hmapeq, ← hsd, hlen, List.sum_eq_foldl]

/-- Witness for C1 on a concrete three-round list whose differentials
are `[18, 13, 23]` (sorted: `[13, 18, 23]`). -/
theorem handicap_formula_witness :
    calculateHandicap sampleRounds
      = toFixed1 ((([13, 18, 23] : List ℚ).take (numToUse sampleRounds.length)).sum
          / (numToUse sampleRounds.length : ℚ) * (96 / 100)) :=
  handicap_formula sampleRounds (by decide)
    (by norm_num [sampleRounds, sampleRound])
    [13, 18, 23]
    (by
      have hmap : sampleRounds.map calculateDifferential = [18, 13, 23] := by
        norm_num [sampleRounds, sampleRound, calculateDifferential]
      rw [hmap]
      exact List.Perm.swap 18 13 [23])
    (by norm_num [List.sorted_cons])
